import Mathlib

/-!
A shallow embedding of the DiffPool graph-classification encoders of
src/encoders.py (classes GraphConv, GcnEncoderGraph, SoftPoolingGcnEncoder).

Two layers of semantics are modelled, mirroring the PyTorch program:

* a shape semantics over natural-number tensor shapes, where every tensor
  operation checks the conformability conditions PyTorch checks at runtime and
  construction-time allocations check the non-negativity of requested sizes
  (an `Option` result, `none` meaning the Python program raises);
* a value semantics over real numbers, where a batched tensor is a function
  from (batch index, row, column) to ℝ, with shapes carried separately as the
  source carries them at runtime; entries outside the tracked shape are junk.

Floating-point arithmetic is idealised as real arithmetic.  Dropout layers are
modelled in evaluation mode (the identity); batch normalization is modelled in
training mode (statistics computed from the batch), which is the mode the
claims under study speak about.
-/

namespace DiffPool

/-! ## Python helpers -/

/-- Python int() applied to a rational number: truncation toward zero.  Used for
int(max_num_nodes * assign_ratio) and int(assign_dim * assign_ratio). -/
def pyInt (q : ℚ) : ℤ := if 0 ≤ q then ⌊q⌋ else -⌊-q⌋

theorem pyInt_nonneg {q : ℚ} (h : 0 ≤ q) : 0 ≤ pyInt q := by
  unfold pyInt
  rw [if_pos h]
  exact Int.le_floor.mpr (by exact_mod_cast h)

theorem pyInt_nonpos {q : ℚ} (h : q ≤ 0) : pyInt q ≤ 0 := by
  unfold pyInt
  by_cases h0 : 0 ≤ q
  · rw [if_pos h0]
    have hq : q = 0 := le_antisymm h h0
    simp [hq]
  · rw [if_neg h0]
    have : (0 : ℤ) ≤ ⌊-q⌋ := Int.le_floor.mpr (by push_cast; linarith)
    omega

theorem pyInt_zero : pyInt 0 = 0 := by
  unfold pyInt
  norm_num

/-- The product of an integer and a rational, built directly from the numerator
and denominator.  ratScale_eq below shows it is exactly (a : ℚ) * q; this form
is preferred because it evaluates by kernel reduction. -/
def ratScale (a : ℤ) (q : ℚ) : ℚ := mkRat (a * q.num) q.den

theorem ratScale_eq (a : ℤ) (q : ℚ) : ratScale a q = (a : ℚ) * q := by
  rw [ratScale, Rat.mkRat_eq_div]
  push_cast
  rw [mul_div_assoc, Rat.num_div_den]

/-! ## Shape semantics

A 3-D tensor shape is (batch, dim1, dim2); a 2-D shape is (batch, dim).
Each operation returns `none` exactly when PyTorch would raise at that
operation. -/

abbrev S3 := ℕ × ℕ × ℕ
abbrev S2 := ℕ × ℕ

/-- Batched matrix product of two 3-D tensors (torch.matmul / @): batch sizes
must agree and the inner dimensions must conform. -/
def bmmS (a b : S3) : Option S3 :=
  if a.1 = b.1 ∧ a.2.2 = b.2.1 then some (a.1, a.2.1, b.2.2) else none

/-- Matrix product of a 3-D tensor with a 2-D weight of shape
(winput, wout) (torch.matmul(y, self.weight)). -/
def mmWS (winput wout : ℕ) (a : S3) : Option S3 :=
  if a.2.2 = winput then some (a.1, a.2.1, wout) else none

/-- Elementwise addition (y += x): shapes must be equal. -/
def addSameS (a b : S3) : Option S3 := if a = b then some a else none

/-- nn.BatchNorm1d(cdim) applied to a 3-D input: dimension 1 must equal the
module's num_features. -/
def bnS (cdim : ℕ) (a : S3) : Option S3 := if a.2.1 = cdim then some a else none

/-- torch.max(x, dim=1): reduction over a dimension requires it non-empty. -/
def maxDim1S (a : S3) : Option S2 := if 1 ≤ a.2.1 then some (a.1, a.2.2) else none

/-- torch.transpose(s, 1, 2). -/
def trShape (a : S3) : S3 := (a.1, a.2.2, a.2.1)

/-- nn.Linear(winput, wout) applied along the last axis of a 3-D tensor. -/
def linear3S (winput wout : ℕ) (a : S3) : Option S3 := mmWS winput wout a

/-- nn.Linear(winput, wout) applied to a batch of vectors. -/
def linearS (winput wout : ℕ) (a : S2) : Option S2 :=
  if a.2 = winput then some (a.1, wout) else none

/-- torch.cat(·, dim=2): all batch and row dimensions must agree; widths add. -/
def catDim2S : List S3 → Option S3
  | [] => none
  | a :: rest =>
    match rest with
    | [] => some a
    | _ :: _ =>
      (catDim2S rest).bind fun r =>
        if a.1 = r.1 ∧ a.2.1 = r.2.1 then some (a.1, a.2.1, a.2.2 + r.2.2) else none

/-- torch.cat(·, dim=1) on batches of vectors: batch dimensions must agree. -/
def catDim1S : List S2 → Option S2
  | [] => none
  | a :: rest =>
    match rest with
    | [] => some a
    | _ :: _ =>
      (catDim1S rest).bind fun r =>
        if a.1 = r.1 then some (a.1, a.2 + r.2) else none

/-- GraphConv.forward at shape level (src/encoders.py lines 28-40): y = adj@x,
optionally y += x, then y @ weight.  Bias addition and row normalization
preserve the shape. -/
def graphConvS (winput wout : ℕ) (addSelf : Bool) (x adj : S3) : Option S3 :=
  (bmmS adj x).bind fun y =>
  (if addSelf then addSameS y x else some y).bind fun y2 =>
  mmWS winput wout y2

/-- The conv_block loop of gcn_forward (lines 144-149) at shape level: blocks
are hidden-to-hidden convolutions; batch norm at index i+1 is applied when
active, failing on an out-of-range index or a channel mismatch. -/
def gcnBlocksS (hid : ℕ) (addSelf : Bool) (bnActive : Bool) (bnSizes : List ℕ)
    (adjS : S3) : ℕ → ℕ → S3 → Option (S3 × List S3)
  | 0, _, xS => some (xS, [])
  | k + 1, i, xS =>
    (graphConvS hid hid addSelf xS adjS).bind fun x1 =>
    (if bnActive then (bnSizes.get? (i + 1)).bind (fun cc => bnS cc x1) else some x1).bind
      fun x2 =>
    (gcnBlocksS hid addSelf bnActive bnSizes adjS k (i + 1) x2).bind fun r =>
    some (r.1, x2 :: r.2)

/-- gcn_forward (lines 125-156) at shape level: first layer, nblocks middle
layers, last layer, concatenation of every layer output along the feature
axis.  The external mask multiplication is shape preserving. -/
def gcnForwardS (winput hid emb nblocks : ℕ) (addSelf : Bool) (bnOn nobn : Bool)
    (bnSizes : List ℕ) (xS adjS : S3) : Option S3 :=
  (graphConvS winput hid addSelf xS adjS).bind fun x1 =>
  (if bnOn && !nobn then (bnSizes.get? 0).bind (fun cc => bnS cc x1) else some x1).bind
    fun x2 =>
  (gcnBlocksS hid addSelf (bnOn && !nobn) bnSizes adjS nblocks 0 x2).bind fun r =>
  (graphConvS hid emb addSelf r.1 adjS).bind fun xl =>
  catDim2S (x2 :: r.2 ++ [xl])

/-- build_pred_layers (lines 92-104) at shape level: with no hidden dimensions a
single Linear(pin, lab); otherwise a chain of Linear+ReLU layers through the
hidden dimensions ending with Linear(last hidden, lab). -/
def predChainS (pin : ℕ) : List ℕ → ℕ → S2 → Option S2
  | [], lab, v => linearS pin lab v
  | h :: hs, lab, v => (linearS pin h v).bind fun v1 => predChainS h hs lab v1

/-! ## Configuration

The constructor arguments of SoftPoolingGcnEncoder (lines 239-242).  The bn
flag is recorded but, exactly as in the source, it is not forwarded to the
parent constructor (line 250 passes only pred_hidden_dims, concat and args),
so the encoder always runs with self.bn = True. -/

structure Config where
  max_num_nodes : ℕ
  input_dim : ℕ
  hidden_dim : ℕ
  embedding_dim : ℕ
  label_dim : ℕ
  num_layers : ℕ
  assign_hidden_dim : ℕ
  assign_ratio : ℚ
  assign_num_layers : ℤ
  num_pooling : ℕ
  pred_hidden_dims : List ℕ
  concat : Bool
  bn : Bool
  linkpred : Bool
  assign_input_dim : ℤ
  deriving DecidableEq

/-- pred_input_dim (lines 67-70). -/
def Config.predInputDim (c : Config) : ℕ :=
  if c.concat then c.hidden_dim * (c.num_layers - 1) + c.embedding_dim else c.embedding_dim

/-- num_nodes = int(max_num_nodes * assign_ratio) (lines 273 and 290): the size
used for every stage's pooling batch-norm layers and the first stage's
assignment dimension. -/
def Config.n1 (c : Config) : ℤ := pyInt (ratScale c.max_num_nodes c.assign_ratio)

/-- The compounding assignment dimension (line 302):
assign_dim is int(max*ratio) at stage 0 and int(previous*ratio) afterwards. -/
def Config.assignDim (c : Config) : ℕ → ℤ
  | 0 => c.n1
  | i + 1 => pyInt (ratScale (c.assignDim i) c.assign_ratio)

/-- assign_num_layers resolution (lines 281-282): -1 means num_layers. -/
def Config.assignL (c : Config) : ℕ :=
  if c.assign_num_layers = -1 then c.num_layers else c.assign_num_layers.toNat

/-- assign_input_dim resolution (lines 283-284): -1 means input_dim. -/
def Config.assignInF (c : Config) : ℕ :=
  if c.assign_input_dim = -1 then c.input_dim else c.assign_input_dim.toNat

/-! ## Shape semantics of SoftPoolingGcnEncoder.forward -/

/-- One iteration of the pooling loop of SoftPoolingGcnEncoder.forward
(lines 350-379) at shape level, for stage index i on state
(x_a shape, adj shape, embedding shape, readout shapes).  The softmax and the
mask multiplications are shape preserving and the assignment gcn_forward runs
with nobn=True, so the batch-norm sizes it receives are irrelevant; the
post-pooling gcn_forward runs with the stage's pooling_bn_layers, whose sizes
are all n1 = int(max_num_nodes*assign_ratio) because line 273 recomputes
num_nodes from max_num_nodes at every iteration. -/
def softLoopS (c : Config) : ℕ → ℕ → S3 × S3 × S3 × List S2 → Option (S3 × S3 × S3 × List S2)
  | 0, _, st => some st
  | k + 1, i, st =>
    let xaS := st.1
    let adjS := st.2.1
    let embS := st.2.2.1
    let outs := st.2.2.2
    let di := (c.assignDim i).toNat
    let aInF := if i = 0 then c.assignInF else c.predInputDim
    let aPredIn := if c.concat then c.assign_hidden_dim * (c.num_layers - 1) + di else di
    (gcnForwardS aInF c.assign_hidden_dim di (c.assignL - 2) (!c.concat) true true
        (List.replicate (c.num_layers - 1) c.max_num_nodes) xaS adjS).bind fun aEmb =>
    (linear3S aPredIn di aEmb).bind fun sS =>
    (bmmS (trShape sS) embS).bind fun xp =>
    (bmmS (trShape sS) adjS).bind fun t1 =>
    (bmmS t1 sS).bind fun adjp =>
    (gcnForwardS c.predInputDim c.hidden_dim c.embedding_dim (c.num_layers - 2)
        (!c.concat) true false (List.replicate (c.num_layers - 1) c.n1.toNat) xp adjp).bind
      fun embp =>
    (maxDim1S embp).bind fun outp =>
    softLoopS c k (i + 1) (xp, adjp, embp, outs ++ [outp])

/-- SoftPoolingGcnEncoder.forward (lines 318-387) at shape level for a
conforming batch: features [B, max_num_nodes, input_dim], adjacency
[B, max_num_nodes, max_num_nodes], assignment features
[B, max_num_nodes, assignInF].  Returns the shape of ypred.  self.bn is always
True (see Config); the validity mask is shape preserving and is therefore not
tracked here. -/
def softForwardS (c : Config) (B : ℕ) : Option S2 :=
  let xS : S3 := (B, c.max_num_nodes, c.input_dim)
  let adjS : S3 := (B, c.max_num_nodes, c.max_num_nodes)
  let bns0 := List.replicate (c.num_layers - 1) c.max_num_nodes
  (gcnForwardS c.input_dim c.hidden_dim c.embedding_dim (c.num_layers - 2)
      (!c.concat) true false bns0 xS adjS).bind fun e0 =>
  (maxDim1S e0).bind fun out0 =>
  (softLoopS c c.num_pooling 0 ((B, c.max_num_nodes, c.assignInF), adjS, e0, [out0])).bind
    fun st =>
  (if c.concat then catDim1S st.2.2.2 else st.2.2.2.getLast?).bind fun rep =>
  predChainS (c.predInputDim * (c.num_pooling + 1)) c.pred_hidden_dims c.label_dim rep

/-! ## Construction-time allocations (SoftPoolingGcnEncoder.__init__) -/

/-- Allocation of a tensor dimension: PyTorch raises on a negative size
(torch.FloatTensor, nn.BatchNorm1d, nn.Linear), while size 0 is legal. -/
def allocNonneg (d : ℤ) : Option Unit := if 0 ≤ d then some () else none

/-- The graph-convolution loop of __init__ (lines 264-277): each of the
num_pooling iterations allocates the post-pooling convolution stack (whose
dimensions are the given naturals, always legal) and num_layers-1
BatchNorm1d(num_nodes) layers with num_nodes = int(max_num_nodes*assign_ratio),
recomputed identically at every iteration (line 273). -/
def constructGCLoopS (c : Config) : ℕ → Option Unit
  | 0 => some ()
  | k + 1 =>
    (if c.num_layers - 1 = 0 then some () else allocNonneg c.n1).bind fun _ =>
    constructGCLoopS c k

/-- The assignment loop of __init__ (lines 291-307): each iteration allocates a
convolution stack whose embedding dimension is the current compounding
assign_dim d (torch.FloatTensor(assign_hidden_dim, d)) and the assignment
prediction Linear whose input dimension is
assign_hidden_dim*(num_layers-1)+d when concatenating, else d (line 296,
Python integer arithmetic, hence over ℤ), then shrinks d (line 302). -/
def constructAssignLoopS (c : Config) : ℕ → ℤ → Option Unit
  | 0, _ => some ()
  | k + 1, d =>
    (allocNonneg d).bind fun _ =>
    (allocNonneg (if c.concat then
        (c.assign_hidden_dim : ℤ) * ((c.num_layers : ℤ) - 1) + d else d)).bind fun _ =>
    constructAssignLoopS c k (pyInt (ratScale d c.assign_ratio))

/-- SoftPoolingGcnEncoder.__init__ (lines 239-316) at the level of size
allocations.  The parent constructor's allocations (conv layers, the
num_layers-1 BatchNorm1d(max_num_nodes) layers, the prediction head) all use
the given natural dimensions and always succeed, so only the two loops with
computed (possibly negative) sizes are tracked. -/
def constructS (c : Config) : Option Unit :=
  (constructGCLoopS c c.num_pooling).bind fun _ =>
  constructAssignLoopS c c.num_pooling c.n1

/-! ## Value semantics

Batched tensors over ℝ.  A 3-D tensor is a function (batch, row, column) → ℝ
and a 2-D tensor is (batch, index) → ℝ; shapes and the inner dimensions of
matrix products are passed explicitly, exactly as they are runtime values in
the source. -/

abbrev T3 := ℕ → ℕ → ℕ → ℝ
abbrev T2 := ℕ → ℕ → ℝ

/-- Per-graph true node counts (batch_num_nodes). -/
abbrev Counts := ℕ → ℕ

noncomputable section

/-- Batched matrix product with inner dimension k (torch.matmul / @). -/
def mm3 (k : ℕ) (a b : T3) : T3 :=
  fun bi i j => ∑ p in Finset.range k, a bi i p * b bi p j

/-- Product of a batched tensor with a 2-D weight, inner dimension k. -/
def mm3W (k : ℕ) (a : T3) (w : T2) : T3 :=
  fun bi i j => ∑ p in Finset.range k, a bi i p * w p j

/-- torch.transpose(·, 1, 2). -/
def tr3 (a : T3) : T3 := fun bi i j => a bi j i

/-- nn.ReLU. -/
def relu3 (x : T3) : T3 := fun b i j => max (x b i j) 0

def relu2 (x : T2) : T2 := fun b j => max (x b j) 0

/-- Multiplication by a broadcast [B, N, 1] mask (x_tensor * embedding_mask). -/
def maskMul (m : Option T2) (x : T3) : T3 :=
  match m with
  | some mv => fun b i j => x b i j * mv b i
  | none => x

/-- GcnEncoderGraph.construct_mask (lines 106-117): entry (b, i) is 1 for
i < batch_num_nodes[b] and 0 otherwise; maxN is the row count of the
resulting [batch, maxN, 1] tensor. -/
def construct_mask (maxN : ℕ) (counts : Counts) : T2 :=
  fun b i => if i < counts b then 1 else 0

/-- The epsilon of F.normalize. -/
def l2eps : ℝ := 1 / 10 ^ 12

/-- F.normalize(y, p=2, dim=2) on one row of width w: division by
max(l2 norm, eps). -/
def l2normalizeRow (w : ℕ) (v : ℕ → ℝ) : ℕ → ℝ :=
  fun j => v j / max (Real.sqrt (∑ k in Finset.range w, v k ^ 2)) l2eps

/-- GraphConv module state (lines 11-26).  The weight is stored as a
(input_dim × output_dim) matrix as in the source; nn.Dropout is the identity
in evaluation mode, which is the mode modelled, so the dropout probability is
recorded but takes no part in forward. -/
structure GraphConv where
  input_dim : ℕ
  output_dim : ℕ
  add_self : Bool
  normalize_embedding : Bool
  dropout : ℝ
  weight : T2
  bias : Option (ℕ → ℝ)

/-- GraphConv.forward (lines 28-40): y = adj @ x, optionally y += x,
y = y @ weight, optional bias, optional per-row l2 normalization; n is the
node count (the inner dimension of adj @ x). -/
def GraphConv.forward (c : GraphConv) (n : ℕ) (x adj : T3) : T3 :=
  let y := mm3 n adj x
  let y := if c.add_self then (fun b i j => y b i j + x b i j) else y
  let y := mm3W c.input_dim y c.weight
  let y := match c.bias with
    | some bv => fun b i j => y b i j + bv j
    | none => y
  if c.normalize_embedding then (fun b i => l2normalizeRow c.output_dim (y b i)) else y

/-- nn.BatchNorm1d state: per-channel affine parameters (self.weight is
initialized to 1 and self.bias to 0 by PyTorch). -/
structure BatchNorm1d where
  num_features : ℕ
  weight : ℕ → ℝ
  bias : ℕ → ℝ

/-- The eps of nn.BatchNorm1d (PyTorch default 1e-5). -/
def bnEps : ℝ := 1 / 100000

/-- Mean over the batch and last axes of channel c of a [B, C, L] tensor. -/
def bnMean (B L : ℕ) (x : T3) (c : ℕ) : ℝ :=
  (∑ n in Finset.range B, ∑ l in Finset.range L, x n c l) / (B * L)

/-- Biased variance over the batch and last axes of channel c. -/
def bnVar (B L : ℕ) (x : T3) (c : ℕ) : ℝ :=
  (∑ n in Finset.range B, ∑ l in Finset.range L, (x n c l - bnMean B L x c) ^ 2) / (B * L)

/-- nn.BatchNorm1d in training mode on a [B, C, L] tensor: channels are
dimension 1, statistics are per channel over the batch and last axes.  In
apply_bn (lines 119-123) the channel axis is the node axis and the last axis
is the feature axis. -/
def BatchNorm1d.apply (m : BatchNorm1d) (B L : ℕ) (x : T3) : T3 :=
  fun n c l =>
    m.weight c * (x n c l - bnMean B L x c) / Real.sqrt (bnVar B L x c + bnEps) + m.bias c

def bnDefault : BatchNorm1d := { num_features := 0, weight := fun _ => 1, bias := fun _ => 0 }

/-- Feature-axis concatenation (torch.cat(x_all, dim=2)) of width-tagged
tensors, returning the total width and the concatenated tensor. -/
def catFeat : List (ℕ × T3) → ℕ × T3
  | [] => (0, fun _ _ _ => 0)
  | (w, t) :: rest =>
      let r := catFeat rest
      (w + r.1, fun b i j => if j < w then t b i j else r.2 b i (j - w))

/-- torch.cat(out_all, dim=1) of width-tagged readout vectors. -/
def catRead : List (ℕ × T2) → ℕ × T2
  | [] => (0, fun _ _ => 0)
  | (w, t) :: rest =>
      let r := catRead rest
      (w + r.1, fun b j => if j < w then t b j else r.2 b (j - w))

/-- torch.max(x, dim=1).values over node count n (n is at least 1 in every
execution PyTorch accepts). -/
def tmax (n : ℕ) (x : T3) : T2 :=
  fun b j => (List.range n).foldl (fun m i => max m (x b i j)) (x b 0 j)

/-- torch.sum(x, dim=1). -/
def tsumNodes (n : ℕ) (x : T3) : T2 :=
  fun b j => ∑ i in Finset.range n, x b i j

/-- The conv_block loop of gcn_forward (lines 144-149): each block applies its
convolution, the nonlinearity, batch norm at index i+1 when active, and is
collected into x_all. -/
def gcnBlocks (B n : ℕ) (bnActive : Bool) (bns : List BatchNorm1d) (adj : T3) :
    List GraphConv → ℕ → T3 → T3 × List (ℕ × T3)
  | [], _, x => (x, [])
  | c :: cs, i, x =>
      let x1 := relu3 (c.forward n x adj)
      let x1 := if bnActive then (bns.getD (i + 1) bnDefault).apply B c.output_dim x1 else x1
      let r := gcnBlocks B n bnActive bns adj cs (i + 1) x1
      (r.1, (c.output_dim, x1) :: r.2)

/-- gcn_forward (lines 125-156): first layer with nonlinearity and optional
batch norm, the conv_block loop, the last layer with neither nonlinearity nor
batch norm, concatenation of all layer outputs along the feature axis, and the
optional mask multiplication.  Returns the feature width with the tensor. -/
def gcn_forward (B n : ℕ) (bnOn : Bool) (conv_first : GraphConv)
    (conv_block : List GraphConv) (conv_last : GraphConv) (x adj : T3)
    (embedding_mask : Option T2) (bns : List BatchNorm1d) (nobn : Bool) : ℕ × T3 :=
  let x1 := relu3 (conv_first.forward n x adj)
  let x1 := if bnOn && !nobn then (bns.getD 0 bnDefault).apply B conv_first.output_dim x1
    else x1
  let r := gcnBlocks B n (bnOn && !nobn) bns adj conv_block 0 x1
  let xl := conv_last.forward n r.1 adj
  let c := catFeat ((conv_first.output_dim, x1) :: r.2 ++ [(conv_last.output_dim, xl)])
  (c.1, maskMul embedding_mask c.2)

/-- nn.Linear state; the weight is stored transposed, as a
(in_features × out_features) matrix, so that entry (p, j) multiplies input
coordinate p of output coordinate j. -/
structure Linear where
  in_features : ℕ
  out_features : ℕ
  weight : T2
  bias : ℕ → ℝ

def Linear.apply3 (m : Linear) (x : T3) : T3 :=
  fun b i j => (∑ p in Finset.range m.in_features, x b i p * m.weight p j) + m.bias j

def Linear.apply2 (m : Linear) (x : T2) : T2 :=
  fun b j => (∑ p in Finset.range m.in_features, x b p * m.weight p j) + m.bias j

/-- nn.Softmax(dim=-1) over a last axis of width nw. -/
def softmax3 (nw : ℕ) (x : T3) : T3 :=
  fun b i j => Real.exp (x b i j) / ∑ k in Finset.range nw, Real.exp (x b i k)

/-- build_pred_layers applied to a batch of vectors (lines 92-104): hidden
Linear layers each followed by ReLU, then the final Linear. -/
def predApply : List Linear → Linear → T2 → T2
  | [], fin, v => fin.apply2 v
  | l :: ls, fin, v => predApply ls fin (relu2 (l.apply2 v))

/-! ## SoftPoolingGcnEncoder.forward -/

/-- line 47 and line 252: add_self = not concat. -/
def add_self_of_concat (concat : Bool) : Bool := !concat

/-- Mask selection inside the pooling loop (lines 351-354): a mask is built
exactly when true node counts are present and the stage index is 0. -/
def stageMask (counts : Option Counts) (maxN : ℕ) (i : ℕ) : Option T2 :=
  match counts with
  | some c => if i = 0 then some (construct_mask maxN c) else none
  | none => none

/-- The mask of the initial embedding pass (lines 326-329). -/
def initialMask (counts : Option Counts) (maxN : ℕ) : Option T2 :=
  counts.map (construct_mask maxN)

/-- The assignment pass of the pooling loop (lines 356-362): the assignment
convolution stack run with nobn=True and the given mask, the assignment
prediction Linear, a softmax over the last axis, and — when a mask is present —
a multiplicative mask applied after the softmax. -/
def assignStage (B n : ℕ) (bnOn : Bool) (afirst : GraphConv) (ablock : List GraphConv)
    (alast : GraphConv) (apred : Linear) (xa adj : T3) (mask : Option T2)
    (bns : List BatchNorm1d) : T3 :=
  let emb := (gcn_forward B n bnOn afirst ablock alast xa adj mask bns true).2
  let sm := softmax3 apred.out_features (apred.apply3 emb)
  maskMul mask sm

/-- The pooled features (line 365): torch.matmul(transpose(S, 1, 2), embedding). -/
def poolFeaturesStep (nin : ℕ) (s emb : T3) : T3 := mm3 nin (tr3 s) emb

/-- The pooled adjacency (line 366): transpose(S, 1, 2) @ adj @ S. -/
def poolAdjStep (nin : ℕ) (s adj : T3) : T3 := mm3 nin (mm3 nin (tr3 s) adj) s

/-- Stage-indexed module lists of SoftPoolingGcnEncoder: the assignment stack
and prediction, the post-pooling convolution stack and its pooling_bn_layers. -/
structure StageParams where
  afirst : GraphConv
  ablock : List GraphConv
  alast : GraphConv
  apred : Linear
  efirst : GraphConv
  eblock : List GraphConv
  elast : GraphConv
  pool_bns : List BatchNorm1d

/-- The loop state of SoftPoolingGcnEncoder.forward: x_a, adj, the embedding
tensor, the current node count, the retained assignment tensor and the
readout accumulator out_all. -/
structure PoolState where
  xa : T3
  adj : T3
  emb : T3
  nodes : ℕ
  assign_tensor : T3
  outs : List (ℕ × T2)

/-- One iteration of the pooling loop (lines 350-379): mask selection,
assignment pass, pooling of features and adjacency, x_a = x, the post-pooling
embedding stack with the stage's pooling_bn_layers and no mask, and the
readout(s). -/
def poolStage (B maxN : ℕ) (bnOn : Bool) (numAggs : ℕ) (bns : List BatchNorm1d)
    (counts : Option Counts) (p : StageParams) (i : ℕ) (st : PoolState) : PoolState :=
  let mask := stageMask counts maxN i
  let s := assignStage B st.nodes bnOn p.afirst p.ablock p.alast p.apred st.xa st.adj mask bns
  let nOut := p.apred.out_features
  let x1 := poolFeaturesStep st.nodes s st.emb
  let adj1 := poolAdjStep st.nodes s st.adj
  let e := gcn_forward B nOut bnOn p.efirst p.eblock p.elast x1 adj1 none p.pool_bns false
  let outs1 := st.outs ++ [(e.1, tmax nOut e.2)]
  let outs1 := if numAggs = 2 then outs1 ++ [(e.1, tsumNodes nOut e.2)] else outs1
  { xa := x1, adj := adj1, emb := e.2, nodes := nOut, assign_tensor := s, outs := outs1 }

/-- The pooling loop (for i in range(self.num_pooling), line 350). -/
def poolLoop (B maxN : ℕ) (bnOn : Bool) (numAggs : ℕ) (bns : List BatchNorm1d)
    (counts : Option Counts) : List StageParams → ℕ → PoolState → PoolState
  | [], _, st => st
  | p :: ps, i, st =>
      poolLoop B maxN bnOn numAggs bns counts ps (i + 1)
        (poolStage B maxN bnOn numAggs bns counts p i st)

/-- The module state of SoftPoolingGcnEncoder. -/
structure SoftModule where
  conv_first : GraphConv
  conv_block : List GraphConv
  conv_last : GraphConv
  bn_layers : List BatchNorm1d
  stages : List StageParams
  pred_hidden : List Linear
  pred_final : Linear
  bnOn : Bool
  concat : Bool
  num_aggs : ℕ

/-- SoftPoolingGcnEncoder.forward (lines 318-387): initial embedding pass with
the initial mask, readout, the pooling loop, aggregation (concatenation of all
readouts, or the last readout alone when not concatenating), and the
prediction head.  Returns ypred together with the final loop state, whose
assign_tensor field the loss function later reads. -/
def softForward (m : SoftModule) (B maxN : ℕ) (x adj : T3) (counts : Option Counts)
    (xaInput : T3) : T2 × PoolState :=
  let embedding_mask := initialMask counts maxN
  let e0 := gcn_forward B maxN m.bnOn m.conv_first m.conv_block m.conv_last x adj
    embedding_mask m.bn_layers false
  let outs0 := [(e0.1, tmax maxN e0.2)]
  let outs0 := if m.num_aggs = 2 then outs0 ++ [(e0.1, tsumNodes maxN e0.2)] else outs0
  let st0 : PoolState :=
    { xa := xaInput, adj := adj, emb := e0.2, nodes := maxN,
      assign_tensor := fun _ _ _ => 0, outs := outs0 }
  let stf := poolLoop B maxN m.bnOn m.num_aggs m.bn_layers counts m.stages 0 st0
  let output := if m.concat then (catRead stf.outs).2
    else (stf.outs.getLastD (0, fun _ _ => 0)).2
  (predApply m.pred_hidden m.pred_final output, stf)

/-! ## GcnEncoderGraph.forward (the plain, non-pooling encoder) -/

/-- The module state of GcnEncoderGraph. -/
structure PlainModule where
  conv_first : GraphConv
  conv_block : List GraphConv
  conv_last : GraphConv
  bn_layers : List BatchNorm1d
  bn : Bool
  concat : Bool
  num_aggs : ℕ
  pred_hidden : List Linear
  pred_final : Linear

/-- The conv_block loop of GcnEncoderGraph.forward (lines 176-185): per-layer
convolution, nonlinearity, optional batch norm, and the per-layer max (and
optionally sum) readouts. -/
def plainBlocks (B n : ℕ) (bnActive : Bool) (bns : List BatchNorm1d) (numAggs : ℕ)
    (adj : T3) : List GraphConv → ℕ → T3 → T3 × List (ℕ × T2)
  | [], _, x => (x, [])
  | c :: cs, i, x =>
      let x1 := relu3 (c.forward n x adj)
      let x1 := if bnActive then (bns.getD (i + 1) bnDefault).apply B c.output_dim x1 else x1
      let o := [(c.output_dim, tmax n x1)]
      let o := if numAggs = 2 then o ++ [(c.output_dim, tsumNodes n x1)] else o
      let r := plainBlocks B n bnActive bns numAggs adj cs (i + 1) x1
      (r.1, o ++ r.2)

/-- GcnEncoderGraph.forward (lines 158-199): the embedding mask is constructed
from batch_num_nodes and stored (self.embedding_mask, line 162) but is not used
by the remainder of the method; per-layer readouts are concatenated (or the
last one selected) and passed through the prediction head.  Returns ypred and
the stored mask. -/
def plainForward (m : PlainModule) (B maxN : ℕ) (x adj : T3) (counts : Option Counts)
    (nobn : Bool) : T2 × Option T2 :=
  let embedding_mask := counts.map (construct_mask maxN)
  let x1 := relu3 (m.conv_first.forward maxN x adj)
  let x1 := if m.bn && !nobn then
      (m.bn_layers.getD 0 bnDefault).apply B m.conv_first.output_dim x1
    else x1
  let outs0 := [(m.conv_first.output_dim, tmax maxN x1)]
  let r := plainBlocks B maxN (m.bn && !nobn) m.bn_layers m.num_aggs adj m.conv_block 0 x1
  let xl := m.conv_last.forward maxN r.1 adj
  let outsL := [(m.conv_last.output_dim, tmax maxN xl)]
  let outsL := if m.num_aggs = 2 then outsL ++ [(m.conv_last.output_dim, tsumNodes maxN xl)]
    else outsL
  let out_all := outs0 ++ r.2 ++ outsL
  let output := if m.concat then (catRead out_all).2
    else (out_all.getLastD (0, fun _ _ => 0)).2
  (predApply m.pred_hidden m.pred_final output, embedding_mask)

/-! ## SoftPoolingGcnEncoder.loss -/

/-- The eps of the loss (line 394). -/
def eps7 : ℝ := 1 / 10 ^ 7

/-- F.cross_entropy(pred, label) with mean reduction over the batch. -/
def cross_entropy (B L : ℕ) (pred : T2) (label : ℕ → ℕ) : ℝ :=
  (∑ b in Finset.range B,
    (Real.log (∑ j in Finset.range L, Real.exp (pred b j)) - pred b (label b))) / B

/-- Batched matrix power with inner dimension n: matPow k = P^(k+1). -/
def matPow (n : ℕ) (P : T3) : ℕ → T3
  | 0 => P
  | k + 1 => mm3 n (matPow n P k) P

/-- Sum of the first k matrix powers: powSumT n P k = P + P^2 + ... + P^k. -/
def powSumT (n : ℕ) (P : T3) : ℕ → T3
  | 0 => fun _ _ _ => 0
  | k + 1 => fun b i j => powSumT n P k b i j + matPow n P k b i j

/-- The multi-hop accumulation loop of the link loss (lines 409-413): after k
iterations tmp is P^(k+1) and pred_adj is P + ... + P^(k+1) (the loop body
runs adj_hop - 1 times). -/
def linkLoop (n : ℕ) (P : T3) : ℕ → T3 × T3
  | 0 => (P, P)
  | k + 1 =>
      let r := linkLoop n P k
      let tmp := mm3 n r.1 P
      (tmp, fun b i j => r.2 b i j + tmp b i j)

/-- The result of SoftPoolingGcnEncoder.loss: the total loss value, the stored
self.link_loss term (0 when link prediction is off), and whether the warning
print of line 402 fired. -/
structure LossOut where
  val : ℝ
  link_loss : ℝ
  warned : Prop

/-- SoftPoolingGcnEncoder.loss (lines 389-434).  s is the retained
self.assign_tensor of shape [B, maxN, n1]; adj is the true adjacency;
counts is batch_num_nodes.  When counts are present the per-pair mask
adj_mask = embedding_mask @ embedding_maskᵀ zeroes invalid pairs of both the
link and the entropy tensors (the in-place assignment on 1-adj_mask.byte()),
and num_entries is the sum over the batch of squared true node counts;
otherwise num_entries is B·maxN·maxN and the warning fires. -/
def softLoss (B L maxN n1 : ℕ) (linkpred : Bool) (entW : ℝ) (s : T3) (pred : T2)
    (label : ℕ → ℕ) (adj : T3) (counts : Option Counts) (adj_hop : ℕ) : LossOut :=
  let ce := cross_entropy B L pred label
  let pred_adj0 := mm3 n1 s (tr3 s)
  let num_entries : ℝ := match counts with
    | none => ((maxN * maxN * B : ℕ) : ℝ)
    | some c => ∑ b in Finset.range B, ((c b * c b : ℕ) : ℝ)
  let adj_mask : Option T3 := counts.map fun c =>
    mm3 1 (fun b i _ => construct_mask maxN c b i) (tr3 (fun b i _ => construct_mask maxN c b i))
  let warned := (linkpred = true ∨ 0 < entW) ∧ counts = none
  let minPA : T3 := fun b i j => min ((linkLoop maxN pred_adj0 (adj_hop - 1)).2 b i j) 1
  let bceT : T3 := fun b i j =>
    -adj b i j * Real.log (minPA b i j + eps7)
      - (1 - adj b i j) * Real.log (1 - minPA b i j + eps7)
  let bceM : T3 := match adj_mask with
    | some am => fun b i j => if am b i j = 0 then 0 else bceT b i j
    | none => bceT
  let linkL := (∑ b in Finset.range B, ∑ i in Finset.range maxN,
    ∑ j in Finset.range maxN, bceM b i j) / num_entries
  let entT : T3 := fun b i j =>
    -pred_adj0 b i j * Real.log (pred_adj0 b i j + eps7)
      - (1 - pred_adj0 b i j) * Real.log (1 - pred_adj0 b i j + eps7)
  let entM : T3 := match adj_mask with
    | some am => fun b i j => if am b i j = 0 then 0 else entT b i j
    | none => entT
  let entL := (∑ b in Finset.range B, ∑ i in Finset.range maxN,
    ∑ j in Finset.range maxN, entM b i j) * entW / num_entries
  let v := ce + (if linkpred then linkL else 0) + (if 0 < entW then entL else 0)
  { val := v, link_loss := if linkpred then linkL else 0, warned := warned }

end

/-! ## Helper lemmas -/

noncomputable section

theorem softmax3_row_sum (nw : ℕ) (h : 1 ≤ nw) (x : T3) (b i : ℕ) :
    ∑ j in Finset.range nw, softmax3 nw x b i j = 1 := by
  unfold softmax3
  rw [← Finset.sum_div]
  apply div_self
  exact ne_of_gt (Finset.sum_pos (fun k _ => Real.exp_pos _) ⟨0, Finset.mem_range.mpr h⟩)

theorem stageMask_pos (counts : Option Counts) (maxN i : ℕ) (h : 1 ≤ i) :
    stageMask counts maxN i = none := by
  cases counts with
  | none => rfl
  | some c =>
      show (if i = 0 then some (construct_mask maxN c) else none) = none
      rw [if_neg (by omega)]

end

/-! ## Theorems for the claims -/

noncomputable section

/-- C2: for every assignment matrix S, embedding X and adjacency A, the pooling
step of the forward pass produces the new features as the batched product
transpose(S)·X and the new adjacency as transpose(S)·A·S elementwise, and no
normalization or clamping is applied: on a hand-constructed 3-node example (all
nodes fully assigned to one cluster of a complete triadjacency) the pooled
adjacency entry is 6 > 1. -/
theorem C2_pooling_is_matrix_products :
    (∀ nin (s x : T3) b i j,
        poolFeaturesStep nin s x b i j = ∑ p in Finset.range nin, s b p i * x b p j) ∧
    (∀ nin (s a : T3) b i j,
        poolAdjStep nin s a b i j
          = ∑ p in Finset.range nin, ∑ q in Finset.range nin, s b p i * a b p q * s b q j) ∧
    (1 : ℝ) <
      poolAdjStep 3 (fun _ _ _ => 1) (fun _ p q => if p = q then 0 else 1) 0 0 0 := by
  refine ⟨fun nin s x b i j => by simp [poolFeaturesStep, mm3, tr3], fun nin s a b i j => ?_, ?_⟩
  · simp only [poolAdjStep, mm3, tr3, Finset.sum_mul]
    rw [Finset.sum_comm]
  · simp [poolAdjStep, mm3, tr3, Finset.sum_range_succ]
    norm_num

/-- C3: the assignment matrix produced by the assignment pass, with the mask
from true node counts, has rows that sum to 1 over the output columns for
every valid input node (row-wise softmax, the mask being applied
multiplicatively after the softmax and equal to 1 there, with no
renormalization), while rows of padded input nodes are exactly zero. -/
theorem C3_assignment_row_stochastic (B n maxN : ℕ) (bnOn : Bool) (afirst : GraphConv)
    (ablock : List GraphConv) (alast : GraphConv) (apred : Linear) (xa adj : T3)
    (bns : List BatchNorm1d) (c : Counts) (hn1 : 1 ≤ apred.out_features) :
    ∀ b i,
      (i < c b → ∑ j in Finset.range apred.out_features,
          assignStage B n bnOn afirst ablock alast apred xa adj
            (some (construct_mask maxN c)) bns b i j = 1) ∧
      (c b ≤ i → ∀ j,
          assignStage B n bnOn afirst ablock alast apred xa adj
            (some (construct_mask maxN c)) bns b i j = 0) := by
  intro b i
  constructor
  · intro hvalid
    have hmask : construct_mask maxN c b i = 1 := by simp [construct_mask, hvalid]
    simp only [assignStage, maskMul, hmask, mul_one]
    exact softmax3_row_sum _ hn1 _ b i
  · intro hpad j
    have hmask : construct_mask maxN c b i = 0 := by
      simp [construct_mask, Nat.not_lt.mpr hpad]
    simp only [assignStage, maskMul, hmask, mul_zero]

/-- C6: the validity mask of SoftPoolingGcnEncoder.forward exists only at stage
0: the stage mask is none for every stage index i ≥ 1 (so those stages run
unmasked, and the whole stage computation coincides with the one where no
counts were given), while at stage 0 both the initial embedding pass and the
pooling loop see the mask built by construct_mask from the true node counts. -/
theorem C6_mask_only_stage_zero :
    (∀ counts maxN i, 1 ≤ i → stageMask counts maxN i = none) ∧
    (∀ (c : Counts) maxN, stageMask (some c) maxN 0 = some (construct_mask maxN c)) ∧
    (∀ (c : Counts) maxN, initialMask (some c) maxN = some (construct_mask maxN c)) ∧
    (∀ B maxN bnOn numAggs bns counts p i st, 1 ≤ i →
        poolStage B maxN bnOn numAggs bns counts p i st
          = poolStage B maxN bnOn numAggs bns none p i st) := by
  refine ⟨stageMask_pos, fun c maxN => rfl, fun c maxN => rfl, ?_⟩
  intro B maxN bnOn numAggs bns counts p i st h
  simp only [poolStage, stageMask_pos _ _ _ h]

def demoConv : GraphConv :=
  { input_dim := 1, output_dim := 1, add_self := false, normalize_embedding := true,
    dropout := 0, weight := fun _ _ => 1, bias := some fun _ => 0 }

def demoLinear : Linear :=
  { in_features := 2, out_features := 1, weight := fun _ _ => 1, bias := fun _ => 0 }

def demoBN : BatchNorm1d :=
  { num_features := 1, weight := fun _ => 1, bias := fun _ => 0 }

def demoStage : StageParams :=
  { afirst := demoConv, ablock := [], alast := demoConv, apred := demoLinear,
    efirst := demoConv, eblock := [], elast := demoConv, pool_bns := [demoBN] }

def demoState : PoolState :=
  { xa := fun _ _ _ => 1, adj := fun _ _ _ => 1, emb := fun _ _ _ => 1, nodes := 2,
    assign_tensor := fun _ _ _ => 0, outs := [] }

theorem C6_witness :
    stageMask (some fun _ => 1) 2 1 = none ∧
    poolStage 1 2 true 1 [] (some fun _ => 1) demoStage 1 demoState
      = poolStage 1 2 true 1 [] none demoStage 1 demoState :=
  ⟨C6_mask_only_stage_zero.1 (some fun _ => 1) 2 1 (by decide),
   C6_mask_only_stage_zero.2.2.2 1 2 true 1 [] (some fun _ => 1) demoStage 1 demoState
     (by decide)⟩

theorem C3_witness :
    ∑ j in Finset.range demoLinear.out_features,
      assignStage 1 2 true demoConv [] demoConv demoLinear (fun _ _ _ => 1) (fun _ _ _ => 1)
        (some (construct_mask 2 fun _ => 1)) [] 0 0 j = 1 :=
  ((C3_assignment_row_stochastic 1 2 2 true demoConv [] demoConv demoLinear
      (fun _ _ _ => 1) (fun _ _ _ => 1) [] (fun _ => 1) (by decide)) 0 0).1 (by decide)

/-- The feature width of a concatenation is the sum of the component widths. -/
theorem catFeat_fst (L : List (ℕ × T3)) : (catFeat L).1 = (L.map Prod.fst).sum := by
  induction L with
  | nil => rfl
  | cons a r ih =>
      cases a with
      | mk w t => simp [catFeat, ih]

/-- The widths collected by the conv_block loop are the blocks' output
dimensions, whatever the start index and input. -/
theorem gcnBlocks_widths (B n : ℕ) (bnActive : Bool) (bns : List BatchNorm1d) (adj : T3)
    (cs : List GraphConv) : ∀ i x,
    ((gcnBlocks B n bnActive bns adj cs i x).2).map Prod.fst
      = cs.map GraphConv.output_dim := by
  induction cs with
  | nil => intro i x; rfl
  | cons c cs ih => intro i x; simp [gcnBlocks, ih]

/-- C5 (amended): gcn_forward always returns the concatenation of every
layer's output along the feature axis — its width is the sum of all layer
output dimensions — independently of the concat configuration flag, which
gcn_forward never consults. -/
theorem C5_amended (B n : ℕ) (bnOn : Bool) (conv_first : GraphConv)
    (conv_block : List GraphConv) (conv_last : GraphConv) (x adj : T3) (mask : Option T2)
    (bns : List BatchNorm1d) (nobn : Bool) :
    (gcn_forward B n bnOn conv_first conv_block conv_last x adj mask bns nobn).1
      = conv_first.output_dim
        + ((conv_block.map GraphConv.output_dim).sum + conv_last.output_dim) := by
  simp [gcn_forward, catFeat_fst, gcnBlocks_widths]

def demoConvSelf : GraphConv :=
  { input_dim := 1, output_dim := 1, add_self := add_self_of_concat false,
    normalize_embedding := true, dropout := 0, weight := fun _ _ => 1,
    bias := some fun _ => 0 }

/-- C5 counterexample: in a non-concatenating configuration (concat = false,
whose layers are built with add_self = not concat = true) a two-layer
gcn_forward still returns a tensor of feature width hidden + embedding = 2,
which is not the final layer's output alone (width 1). -/
theorem C5_counterexample :
    (gcn_forward 1 1 true demoConvSelf [] demoConvSelf (fun _ _ _ => 1) (fun _ _ _ => 1)
        none [] false).1 = 2
      ∧ demoConvSelf.output_dim = 1 ∧ (2 : ℕ) ≠ 1 :=
  ⟨rfl, rfl, by decide⟩

/-! Batch normalization as the spec reads it, for comparison with the
source-faithful BatchNorm1d.apply. -/

/-- Mean per feature (last axis) across the batch and node axes. -/
def bnFeatMean (B C : ℕ) (x : T3) (l : ℕ) : ℝ :=
  (∑ n in Finset.range B, ∑ c in Finset.range C, x n c l) / (B * C)

/-- Biased variance per feature across the batch and node axes. -/
def bnFeatVar (B C : ℕ) (x : T3) (l : ℕ) : ℝ :=
  (∑ n in Finset.range B, ∑ c in Finset.range C, (x n c l - bnFeatMean B C x l) ^ 2) / (B * C)

/-- Batch normalization with statistics computed per feature across the
batch×node population.  This definition follows the words of the spec
(section 4.2) and is the comparison point for C7; the source applies
BatchNorm1d(max_num_nodes), whose channel axis is the node axis instead. -/
def bnPerFeatureSpec (B C : ℕ) (w bsh : ℕ → ℝ) (x : T3) : T3 :=
  fun n c l =>
    w l * (x n c l - bnFeatMean B C x l) / Real.sqrt (bnFeatVar B C x l + bnEps) + bsh l

/-- A [1, 2, 1] input whose two node slots hold constants 0 and 2. -/
def bnDemoInput : T3 := fun _ c _ => 2 * (c : ℝ)

/-- C7 counterexample: on a concrete [1, 2, 1] input the batch normalization
the source applies (channel statistics over the node axis, as apply_bn feeds
[batch, nodes, features] to BatchNorm1d(max_num_nodes)) differs from a batch
normalization whose statistics are computed per feature across the batch×node
population: the former normalizes each node slot by its own (degenerate)
statistics and returns 0 at entry (0,0,0), the latter returns a negative
value there. -/
theorem C7_counterexample :
    BatchNorm1d.apply { num_features := 2, weight := fun _ => 1, bias := fun _ => 0 } 1 1
        bnDemoInput
      ≠ bnPerFeatureSpec 1 2 (fun _ => 1) (fun _ => 0) bnDemoInput := by
  intro h
  have h0 := congrFun (congrFun (congrFun h 0) 0) 0
  have hL : BatchNorm1d.apply { num_features := 2, weight := fun _ => 1, bias := fun _ => 0 }
      1 1 bnDemoInput 0 0 0 = 0 := by
    simp [BatchNorm1d.apply, bnMean, bnDemoInput]
  have hm : bnFeatMean 1 2 bnDemoInput 0 = 1 := by
    norm_num [bnFeatMean, bnDemoInput, Finset.sum_range_succ]
  have hv : bnFeatVar 1 2 bnDemoInput 0 = 1 := by
    norm_num [bnFeatVar, bnDemoInput, Finset.sum_range_succ, hm]
  have hs : 0 < Real.sqrt (bnFeatVar 1 2 bnDemoInput 0 + bnEps) := by
    apply Real.sqrt_pos.mpr
    rw [hv]
    norm_num [bnEps]
  have hR : bnPerFeatureSpec 1 2 (fun _ => 1) (fun _ => 0) bnDemoInput 0 0 0 < 0 := by
    unfold bnPerFeatureSpec
    rw [hm]
    have hx : bnDemoInput 0 0 0 = 0 := by simp [bnDemoInput]
    rw [hx]
    have : (1 : ℝ) * (0 - 1) = -1 := by norm_num
    rw [this]
    simp only [add_zero]
    exact div_neg_of_neg_of_pos (by norm_num) hs
  rw [hL] at h0
  rw [← h0] at hR
  exact lt_irrefl 0 hR

/-- With nobn = True, gcn_forward applies no batch normalization, so its value
does not depend on the batch-norm layers it is handed. -/
theorem gcnBlocks_noBn (B n : ℕ) (bns bns2 : List BatchNorm1d) (adj : T3)
    (cs : List GraphConv) : ∀ i x,
    gcnBlocks B n false bns adj cs i x = gcnBlocks B n false bns2 adj cs i x := by
  induction cs with
  | nil => intro i x; rfl
  | cons c cs ih => intro i x; simp [gcnBlocks, ih]

theorem gcn_forward_nobn_bns (B n : ℕ) (bnOn : Bool) (f : GraphConv) (bl : List GraphConv)
    (l : GraphConv) (x adj : T3) (mask : Option T2) (bns bns2 : List BatchNorm1d) :
    gcn_forward B n bnOn f bl l x adj mask bns true
      = gcn_forward B n bnOn f bl l x adj mask bns2 true := by
  have hb := gcnBlocks_noBn B n bns bns2 adj bl
  simp only [gcn_forward, Bool.not_true, Bool.and_false, Bool.false_eq_true, if_false, hb]

/-- C7 (amended): when batch normalization is applied in a convolution stack
its statistics are per node slot (the channel axis BatchNorm1d(max_num_nodes)
normalizes) across the batch×feature population — the normalized value at a
node slot depends only on that slot's entries; batch normalization is skipped
for every layer when the nobn flag is set, so the stack's output does not
depend on the batch-norm layers at all; and the assignment passes run in
exactly that nobn mode. -/
theorem C7_amended :
    (∀ B C L (w bsh : ℕ → ℝ) (x y : T3) c,
        (∀ n l, x n c l = y n c l) →
        ∀ n l, BatchNorm1d.apply { num_features := C, weight := w, bias := bsh } B L x n c l
          = BatchNorm1d.apply { num_features := C, weight := w, bias := bsh } B L y n c l) ∧
    (∀ B n (bnOn : Bool) f bl l (x adj : T3) mask bns bns2,
        gcn_forward B n bnOn f bl l x adj mask bns true
          = gcn_forward B n bnOn f bl l x adj mask bns2 true) ∧
    (∀ B n (bnOn : Bool) af ab al ap (xa adj : T3) mask bns bns2,
        assignStage B n bnOn af ab al ap xa adj mask bns
          = assignStage B n bnOn af ab al ap xa adj mask bns2) := by
  refine ⟨?_, gcn_forward_nobn_bns, ?_⟩
  · intro B C L w bsh x y c hagree n l
    have hm : bnMean B L x c = bnMean B L y c := by
      unfold bnMean
      congr 1
      exact Finset.sum_congr rfl fun n2 _ =>
        Finset.sum_congr rfl fun l2 _ => hagree n2 l2
    have hv : bnVar B L x c = bnVar B L y c := by
      unfold bnVar
      rw [hm]
      congr 1
      exact Finset.sum_congr rfl fun n2 _ =>
        Finset.sum_congr rfl fun l2 _ => by rw [hagree n2 l2]
    simp only [BatchNorm1d.apply, hm, hv, hagree n l]
  · intro B n bnOn af ab al ap xa adj mask bns bns2
    unfold assignStage
    rw [gcn_forward_nobn_bns B n bnOn af ab al xa adj mask bns bns2]

theorem C7_witness :
    BatchNorm1d.apply { num_features := 2, weight := fun _ => 1, bias := fun _ => 0 } 1 1
        bnDemoInput 0 0 0
      = BatchNorm1d.apply { num_features := 2, weight := fun _ => 1, bias := fun _ => 0 } 1 1
        bnDemoInput 0 0 0 :=
  C7_amended.1 1 2 1 (fun _ => 1) (fun _ => 0) bnDemoInput bnDemoInput 0
    (fun _ _ => rfl) 0 0

theorem getReplicate {α : Type} (v : α) : ∀ m j, j < m → (List.replicate m v).get? j = some v := by
  intro m
  induction m with
  | zero => intro j h; omega
  | succ m ih =>
      intro j h
      cases j with
      | zero => rfl
      | succ j => exact ih j (by omega)

/-- A graph convolution on a conforming input [B, n, w] with adjacency
[B, n, n] succeeds with output [B, n, wout]. -/
theorem graphConvS_ok (w wout B n : ℕ) (as : Bool) :
    graphConvS w wout as (B, n, w) (B, n, n) = some (B, n, wout) := by
  cases as <;> simp [graphConvS, bmmS, addSameS, mmWS]

/-- The conv_block shape loop succeeds on a conforming [B, n, hid] input with
active batch norm whose sizes are m copies of n, as long as the indices it
touches stay in range. -/
theorem gcnBlocksS_bn (hid n B m : ℕ) (as : Bool) :
    ∀ k i, i + k < m →
    gcnBlocksS hid as true (List.replicate m n) (B, n, n) k i (B, n, hid)
      = some ((B, n, hid), List.replicate k (B, n, hid)) := by
  intro k
  induction k with
  | zero => intro i h; rfl
  | succ k ih =>
      intro i h
      rw [gcnBlocksS, graphConvS_ok, getReplicate n m (i + 1) (by omega)]
      simp only [Option.bind, if_true, bnS]
      rw [ih (i + 1) (by omega)]
      simp [List.replicate_succ]

/-- The conv_block shape loop with inactive batch norm. -/
theorem gcnBlocksS_nobn (hid n B : ℕ) (as : Bool) (bnSizes : List ℕ) :
    ∀ k i, gcnBlocksS hid as false bnSizes (B, n, n) k i (B, n, hid)
      = some ((B, n, hid), List.replicate k (B, n, hid)) := by
  intro k
  induction k with
  | zero => intro i; rfl
  | succ k ih =>
      intro i
      rw [gcnBlocksS, graphConvS_ok]
      simp only [Option.bind, Bool.false_eq_true, if_false]
      rw [ih (i + 1)]
      simp [List.replicate_succ]

theorem catDim2S_cons (B n w : ℕ) (rest : List S3) (r : S3) (hr : catDim2S rest = some r)
    (hB : r.1 = B) (hn : r.2.1 = n) (hne : rest ≠ []) :
    catDim2S ((B, n, w) :: rest) = some (B, n, w + r.2.2) := by
  cases rest with
  | nil => exact absurd rfl hne
  | cons a t =>
      rw [catDim2S, hr]
      simp [hB, hn]

theorem catDim2S_rep (B n hid emb : ℕ) : ∀ k,
    catDim2S (List.replicate k (B, n, hid) ++ [(B, n, emb)])
      = some (B, n, hid * k + emb) := by
  intro k
  induction k with
  | zero => simp [catDim2S]
  | succ k ih =>
      rw [List.replicate_succ, List.cons_append]
      rw [catDim2S_cons B n hid _ _ ih rfl rfl (by simp)]
      congr 2
      ring_nf

theorem bnS_ok (cdim B w : ℕ) : bnS cdim (B, cdim, w) = some (B, cdim, w) := by
  simp [bnS]

/-- A gcn_forward shape with active batch norm on a conforming input: output
width hid + (hid·k + emb), the concatenation of the k+2 layer outputs. -/
theorem gcnForwardS_bn (B n w hid emb m : ℕ) (as : Bool) (k : ℕ) (hk : k < m) :
    gcnForwardS w hid emb k as true false (List.replicate m n) (B, n, w) (B, n, n)
      = some (B, n, hid + (hid * k + emb)) := by
  rw [gcnForwardS, graphConvS_ok, Option.some_bind]
  simp only [Bool.not_false, Bool.and_self, eq_self_iff_true, if_true]
  rw [getReplicate n m 0 (by omega), Option.some_bind, bnS_ok, Option.some_bind,
    gcnBlocksS_bn hid n B m as k 0 (by omega), Option.some_bind, graphConvS_ok,
    Option.some_bind]
  exact catDim2S_cons B n hid _ _ (catDim2S_rep B n hid emb k) rfl rfl (by simp)

/-- A gcn_forward shape with nobn = true on a conforming input. -/
theorem gcnForwardS_nobn (B n w hid emb : ℕ) (as bnOn : Bool) (bnSizes : List ℕ) (k : ℕ) :
    gcnForwardS w hid emb k as bnOn true bnSizes (B, n, w) (B, n, n)
      = some (B, n, hid + (hid * k + emb)) := by
  rw [gcnForwardS, graphConvS_ok, Option.some_bind]
  simp only [Bool.not_true, Bool.and_false, Bool.false_eq_true, if_false]
  rw [Option.some_bind, gcnBlocksS_nobn hid n B as bnSizes k 0, Option.some_bind,
    graphConvS_ok, Option.some_bind]
  exact catDim2S_cons B n hid _ _ (catDim2S_rep B n hid emb k) rfl rfl (by simp)

theorem predChainS_ok (B lab : ℕ) : ∀ (hs : List ℕ) (pin : ℕ),
    predChainS pin hs lab (B, pin) = some (B, lab) := by
  intro hs
  induction hs with
  | nil => intro pin; simp [predChainS, linearS]
  | cons h t ih => intro pin; simp [predChainS, linearS, ih]

theorem maxDim1S_ok (B n w : ℕ) (h : 1 ≤ n) : maxDim1S (B, n, w) = some (B, w) := by
  simp [maxDim1S, h]

theorem catDim1S_single (a : S2) : catDim1S [a] = some a := rfl

theorem catDim1S_pair (B w : ℕ) : catDim1S [(B, w), (B, w)] = some (B, w + w) := by
  simp [catDim1S]

/-- C1 (amended): for configurations with concatenation enabled, at least two
convolution layers, the default assignment depth, at most one pooling stage
(whose node count int(max_num_nodes·assign_ratio) is positive when a stage
exists) and a positive node count, the hierarchical forward pass on a
conforming batch succeeds with label scores of shape exactly [B, label_dim].
The original claim — every K ≥ 0 and every positive ratio — fails: see the
counterexample. -/
theorem C1_amended (cfg : Config) (B : ℕ)
    (hconcat : cfg.concat = true) (hL : 2 ≤ cfg.num_layers)
    (haL : cfg.assign_num_layers = -1) (hK : cfg.num_pooling ≤ 1)
    (hd0 : 1 ≤ cfg.num_pooling → 1 ≤ cfg.n1) (hN : 1 ≤ cfg.max_num_nodes) :
    softForwardS cfg B = some (B, cfg.label_dim) := by
  have hpred : cfg.predInputDim
      = cfg.hidden_dim + (cfg.hidden_dim * (cfg.num_layers - 2) + cfg.embedding_dim) := by
    rw [Config.predInputDim, hconcat, if_pos rfl,
      show cfg.num_layers - 1 = (cfg.num_layers - 2) + 1 from by omega, Nat.mul_succ]
    ring
  have hasL : cfg.assignL = cfg.num_layers := by
    rw [Config.assignL, if_pos haL]
  rw [softForwardS,
    gcnForwardS_bn B cfg.max_num_nodes cfg.input_dim cfg.hidden_dim cfg.embedding_dim
      (cfg.num_layers - 1) (!cfg.concat) (cfg.num_layers - 2) (by omega),
    Option.some_bind, maxDim1S_ok B cfg.max_num_nodes _ hN, Option.some_bind]
  rcases Nat.le_one_iff_eq_zero_or_eq_one.mp hK with h0 | h1
  · rw [h0]
    simp only [softLoopS, Option.some_bind, hconcat, if_true, catDim1S_single,
      Option.some_bind]
    rw [hpred]
    rw [show (cfg.hidden_dim + (cfg.hidden_dim * (cfg.num_layers - 2) + cfg.embedding_dim))
        * (0 + 1)
      = cfg.hidden_dim + (cfg.hidden_dim * (cfg.num_layers - 2) + cfg.embedding_dim) from
      by ring]
    exact predChainS_ok B cfg.label_dim cfg.pred_hidden_dims _
  · have hn1 : 1 ≤ cfg.n1 := hd0 (by omega)
    have hN1 : 1 ≤ cfg.n1.toNat := by omega
    have hassign : (if cfg.concat then
          cfg.assign_hidden_dim * (cfg.num_layers - 1) + cfg.n1.toNat else cfg.n1.toNat)
        = cfg.assign_hidden_dim
          + (cfg.assign_hidden_dim * (cfg.num_layers - 2) + cfg.n1.toNat) := by
      rw [hconcat, if_pos rfl,
        show cfg.num_layers - 1 = (cfg.num_layers - 2) + 1 from by omega, Nat.mul_succ]
      ring
    rw [h1]
    simp only [softLoopS, Config.assignDim, eq_self_iff_true, if_true, hasL, hassign]
    rw [gcnForwardS_nobn B cfg.max_num_nodes cfg.assignInF cfg.assign_hidden_dim
      cfg.n1.toNat (!cfg.concat) true (List.replicate (cfg.num_layers - 1) cfg.max_num_nodes)
      (cfg.num_layers - 2), Option.some_bind]
    rw [show linear3S (cfg.assign_hidden_dim
        + (cfg.assign_hidden_dim * (cfg.num_layers - 2) + cfg.n1.toNat)) cfg.n1.toNat
        (B, cfg.max_num_nodes, cfg.assign_hidden_dim
          + (cfg.assign_hidden_dim * (cfg.num_layers - 2) + cfg.n1.toNat))
      = some (B, cfg.max_num_nodes, cfg.n1.toNat) from by simp [linear3S, mmWS],
      Option.some_bind]
    simp only [trShape]
    rw [show bmmS (B, cfg.n1.toNat, cfg.max_num_nodes)
        (B, cfg.max_num_nodes,
          cfg.hidden_dim + (cfg.hidden_dim * (cfg.num_layers - 2) + cfg.embedding_dim))
      = some (B, cfg.n1.toNat,
          cfg.hidden_dim + (cfg.hidden_dim * (cfg.num_layers - 2) + cfg.embedding_dim))
      from by simp [bmmS], Option.some_bind]
    rw [show bmmS (B, cfg.n1.toNat, cfg.max_num_nodes)
        (B, cfg.max_num_nodes, cfg.max_num_nodes)
      = some (B, cfg.n1.toNat, cfg.max_num_nodes) from by simp [bmmS], Option.some_bind]
    rw [show bmmS (B, cfg.n1.toNat, cfg.max_num_nodes)
        (B, cfg.max_num_nodes, cfg.n1.toNat)
      = some (B, cfg.n1.toNat, cfg.n1.toNat) from by simp [bmmS], Option.some_bind]
    rw [hpred,
      gcnForwardS_bn B cfg.n1.toNat
        (cfg.hidden_dim + (cfg.hidden_dim * (cfg.num_layers - 2) + cfg.embedding_dim))
        cfg.hidden_dim cfg.embedding_dim (cfg.num_layers - 1) (!cfg.concat)
        (cfg.num_layers - 2) (by omega),
      Option.some_bind, maxDim1S_ok B cfg.n1.toNat _ hN1, Option.some_bind]
    simp only [softLoopS, Option.some_bind, hconcat, if_true, List.singleton_append,
      catDim1S_pair, Option.some_bind]
    rw [show (cfg.hidden_dim + (cfg.hidden_dim * (cfg.num_layers - 2) + cfg.embedding_dim))
        * (1 + 1)
      = (cfg.hidden_dim + (cfg.hidden_dim * (cfg.num_layers - 2) + cfg.embedding_dim))
        + (cfg.hidden_dim + (cfg.hidden_dim * (cfg.num_layers - 2) + cfg.embedding_dim))
      from by ring]
    exact predChainS_ok B cfg.label_dim cfg.pred_hidden_dims _

/-- A configuration with two pooling stages, shrink ratio 1/2, 4 nodes, two
convolution layers and concatenation on — a configuration the original C1
claim accepts as valid (K ≥ 0, positive ratio). -/
def cfgTwoStages : Config :=
  { max_num_nodes := 4, input_dim := 1, hidden_dim := 1, embedding_dim := 1,
    label_dim := 2, num_layers := 2, assign_hidden_dim := 1, assign_ratio := mkRat 1 2,
    assign_num_layers := -1, num_pooling := 2, pred_hidden_dims := [], concat := true,
    bn := true, linkpred := true, assign_input_dim := -1 }

/-- C1 counterexample: with two pooling stages and the positive shrink ratio
1/2 the forward pass does not return a [B, L] tensor — it raises at stage 1's
post-pooling batch normalization, because __init__ line 273 sizes every
stage's pooling_bn_layers at int(max_num_nodes·assign_ratio) = 2 while the
stage-1 graph has int(2·assign_ratio) = 1 nodes. -/
theorem C1_counterexample :
    softForwardS cfgTwoStages 1 = none ∧ (0 : ℚ) < cfgTwoStages.assign_ratio :=
  ⟨by decide, by decide⟩

def cfgOneStage : Config :=
  { cfgTwoStages with max_num_nodes := 2, num_pooling := 1, label_dim := 3 }

theorem C1_witness : softForwardS cfgOneStage 1 = some (1, 3) :=
  C1_amended cfgOneStage 1 rfl (by decide) rfl (by decide) (fun _ => by decide) (by decide)

theorem constructGCLoopS_ok (c : Config) (h : 0 ≤ c.n1 ∨ c.num_layers - 1 = 0) :
    ∀ k, constructGCLoopS c k = some () := by
  intro k
  induction k with
  | zero => rfl
  | succ k ih =>
      rw [constructGCLoopS]
      rcases h with h | h
      · by_cases hnl : c.num_layers - 1 = 0
        · rw [if_pos hnl, Option.some_bind, ih]
        · rw [if_neg hnl, show allocNonneg c.n1 = some () from by
            rw [allocNonneg, if_pos h], Option.some_bind, ih]
      · rw [if_pos h, Option.some_bind, ih]

theorem constructAssignLoopS_ok (c : Config) (hnL : 1 ≤ c.num_layers) :
    ∀ k (d : ℤ), 0 ≤ d → (c.assign_ratio < 0 → d = 0) →
    constructAssignLoopS c k d = some () := by
  intro k
  induction k with
  | zero => intro d _ _; rfl
  | succ k ih =>
      intro d hd hneg
      rw [constructAssignLoopS, show allocNonneg d = some () from by
        rw [allocNonneg, if_pos hd], Option.some_bind]
      have h2 : allocNonneg (if c.concat then
          (c.assign_hidden_dim : ℤ) * ((c.num_layers : ℤ) - 1) + d else d) = some () := by
        have hb : (0 : ℤ) ≤ (c.assign_hidden_dim : ℤ) * ((c.num_layers : ℤ) - 1) + d := by
          have h3 : (0 : ℤ) ≤ (c.assign_hidden_dim : ℤ) * ((c.num_layers : ℤ) - 1) :=
            mul_nonneg (by positivity) (by omega)
          omega
        cases c.concat with
        | true => rw [if_pos rfl, allocNonneg, if_pos hb]
        | false =>
            rw [show (if (false = true) then
              (c.assign_hidden_dim : ℤ) * ((c.num_layers : ℤ) - 1) + d else d) = d from by
                simp, allocNonneg, if_pos hd]
      rw [h2, Option.some_bind]
      rcases le_or_lt 0 c.assign_ratio with hr | hr
      · have hd2 : 0 ≤ pyInt (ratScale d c.assign_ratio) := by
          rw [ratScale_eq]
          exact pyInt_nonneg (mul_nonneg (by exact_mod_cast hd) hr)
        exact ih (pyInt (ratScale d c.assign_ratio)) hd2
          (fun h => absurd hr (not_le.mpr h))
      · have hzero : pyInt (ratScale d c.assign_ratio) = 0 := by
          rw [hneg hr, ratScale_eq]
          simp [pyInt_zero]
        rw [hzero]
        exact ih 0 le_rfl (fun _ => rfl)

/-- C9 (amended): with at least one convolution layer, construction of the
hierarchical encoder fails exactly when there is at least one pooling stage
and the first-stage node count int(max_num_nodes·assign_ratio) is negative
(a negative tensor size).  In particular a non-positive shrink ratio that
truncates to a zero node count, or a stage count that drives some stage's node
count to zero, constructs successfully and the failure is deferred to the
forward pass — contrary to the original claim; see the counterexample. -/
theorem C9_amended (c : Config) (hnL : 1 ≤ c.num_layers) :
    constructS c = none ↔ 1 ≤ c.num_pooling ∧ c.n1 < 0 := by
  constructor
  · intro hnone
    by_contra hcon
    rw [not_and_or] at hcon
    have hok : constructS c = some () := by
      rcases hcon with hK | hpos
      · have hK0 : c.num_pooling = 0 := by omega
        rw [constructS, hK0]
        rfl
      · have hn1 : 0 ≤ c.n1 := by omega
        rw [constructS, constructGCLoopS_ok c (Or.inl hn1), Option.some_bind]
        apply constructAssignLoopS_ok c hnL _ c.n1 hn1
        intro hr
        have h1 : c.n1 ≤ 0 := by
          rw [Config.n1, ratScale_eq]
          exact pyInt_nonpos (mul_nonpos_of_nonneg_of_nonpos (by positivity) (le_of_lt hr))
        omega
    rw [hok] at hnone
    exact Option.noConfusion hnone
  · rintro ⟨hK1, hneg⟩
    obtain ⟨k, hk⟩ : ∃ k, c.num_pooling = k + 1 := ⟨c.num_pooling - 1, by omega⟩
    have hfail : allocNonneg c.n1 = none := by
      rw [allocNonneg, if_neg (by omega)]
    by_cases hnl : c.num_layers - 1 = 0
    · rw [constructS, constructGCLoopS_ok c (Or.inr hnl), Option.some_bind, hk,
        constructAssignLoopS, hfail, Option.none_bind]
    · rw [constructS, hk, constructGCLoopS, if_neg hnl, hfail, Option.none_bind]
      rfl

/-- A configuration with shrink ratio 0 (non-positive) and one pooling stage. -/
def cfgZeroRatio : Config := { cfgTwoStages with assign_ratio := 0, num_pooling := 1 }

/-- C9 counterexample: a configuration with a non-positive shrink ratio (0)
and a pooling stage constructs successfully — int(max·0) = 0 and PyTorch
accepts zero-sized layers — instead of failing at construction time as the
claim requires; the failure surfaces only in a later forward pass. -/
theorem C9_counterexample :
    constructS cfgZeroRatio = some () ∧ cfgZeroRatio.assign_ratio ≤ 0
      ∧ 1 ≤ cfgZeroRatio.num_pooling :=
  ⟨by decide, by decide, by decide⟩

def cfgNegRatio : Config := { cfgTwoStages with assign_ratio := -2, num_pooling := 1 }

theorem C9_witness : constructS cfgNegRatio = none :=
  (C9_amended cfgNegRatio (by decide)).mpr ⟨by decide, by decide⟩

/-- After k iterations the accumulation loop of the link loss holds
(P^(k+1), P + P^2 + ... + P^(k+1)). -/
theorem linkLoop_eq (n : ℕ) (P : T3) : ∀ k,
    linkLoop n P k = (matPow n P k, powSumT n P (k + 1)) := by
  intro k
  induction k with
  | zero =>
      unfold linkLoop
      refine Prod.ext rfl ?_
      funext b i j
      show P b i j = powSumT n P 1 b i j
      simp [powSumT, matPow]
  | succ k ih =>
      unfold linkLoop
      rw [ih]
      refine Prod.ext rfl ?_
      funext b i j
      show powSumT n P (k + 1) b i j + mm3 n (matPow n P k) P b i j
        = powSumT n P (k + 2) b i j
      rfl

/-- The pairwise adjacency mask embedding_mask @ embedding_maskᵀ is the outer
product of the validity mask with itself. -/
theorem adjMaskProd (maxN : ℕ) (c : Counts) (b i j : ℕ) :
    mm3 1 (fun b2 i2 _ => construct_mask maxN c b2 i2)
      (tr3 fun b2 i2 _ => construct_mask maxN c b2 i2) b i j
      = construct_mask maxN c b i * construct_mask maxN c b j := by
  simp [mm3, tr3]

/-- Zeroing on the inverted byte mask coincides with selecting valid node
pairs. -/
theorem maskedEq (maxN : ℕ) (c : Counts) (b i j : ℕ) (t : ℝ) :
    (if construct_mask maxN c b i * construct_mask maxN c b j = 0 then 0 else t)
      = if i < c b ∧ j < c b then t else 0 := by
  by_cases h1 : i < c b <;> by_cases h2 : j < c b <;>
    simp [construct_mask, h1, h2]

/-- C4: with link prediction enabled and true node counts available, the
retained link loss reconstructs the predicted adjacency as S·Sᵗ, sums its
first adj_hop matrix powers, clamps the cumulative sum (not each power)
elementwise at 1, applies elementwise binary cross-entropy against the true
adjacency with an additive epsilon inside each logarithm, zeroes entries
outside the valid-node-pair mask, and divides by the sum over the batch of
squared true node counts. -/
theorem C4_link_loss (B L maxN n1 : ℕ) (entW : ℝ) (s : T3) (pred : T2) (label : ℕ → ℕ)
    (adj : T3) (c : Counts) (adj_hop : ℕ) (hhop : 1 ≤ adj_hop) :
    (softLoss B L maxN n1 true entW s pred label adj (some c) adj_hop).link_loss
      = (∑ b in Finset.range B, ∑ i in Finset.range maxN, ∑ j in Finset.range maxN,
          (if i < c b ∧ j < c b then
            -adj b i j
                * Real.log (min (powSumT maxN (mm3 n1 s (tr3 s)) adj_hop b i j) 1 + eps7)
              - (1 - adj b i j)
                * Real.log (1 - min (powSumT maxN (mm3 n1 s (tr3 s)) adj_hop b i j) 1 + eps7)
          else 0))
        / (∑ b in Finset.range B, ((c b * c b : ℕ) : ℝ)) := by
  have harith : adj_hop - 1 + 1 = adj_hop := by omega
  simp only [softLoss, linkLoop_eq, harith, Option.map, if_true, adjMaskProd, maskedEq]

/-- C8: when structural losses are enabled — link prediction on, or a positive
entropy-regularization weight — and true node counts are unavailable, the loss
computation proceeds without masking and emits the warning: the total loss is
the cross-entropy plus, for each enabled structural term, its unmasked tensor
summed over all B·maxN·maxN entries and divided by that full count. -/
theorem C8_unmasked_with_warning (B L maxN n1 : ℕ) (linkpred : Bool) (entW : ℝ) (s : T3)
    (pred : T2) (label : ℕ → ℕ) (adj : T3) (adj_hop : ℕ)
    (hen : linkpred = true ∨ 0 < entW) (hhop : 1 ≤ adj_hop) :
    (softLoss B L maxN n1 linkpred entW s pred label adj none adj_hop).warned
      ∧ (softLoss B L maxN n1 linkpred entW s pred label adj none adj_hop).val
        = cross_entropy B L pred label
          + (if linkpred then
              (∑ b in Finset.range B, ∑ i in Finset.range maxN, ∑ j in Finset.range maxN,
                (-adj b i j
                    * Real.log (min (powSumT maxN (mm3 n1 s (tr3 s)) adj_hop b i j) 1 + eps7)
                  - (1 - adj b i j)
                    * Real.log
                      (1 - min (powSumT maxN (mm3 n1 s (tr3 s)) adj_hop b i j) 1 + eps7)))
                / ((maxN * maxN * B : ℕ) : ℝ)
            else 0)
          + (if 0 < entW then
              (∑ b in Finset.range B, ∑ i in Finset.range maxN, ∑ j in Finset.range maxN,
                (-mm3 n1 s (tr3 s) b i j * Real.log (mm3 n1 s (tr3 s) b i j + eps7)
                  - (1 - mm3 n1 s (tr3 s) b i j)
                    * Real.log (1 - mm3 n1 s (tr3 s) b i j + eps7)))
                * entW / ((maxN * maxN * B : ℕ) : ℝ)
            else 0) := by
  constructor
  · exact ⟨hen, rfl⟩
  · have harith : adj_hop - 1 + 1 = adj_hop := by omega
    simp only [softLoss, linkLoop_eq, harith, Option.map]

theorem C4_witness :
    (softLoss 1 1 1 1 true 0 (fun _ _ _ => 1) (fun _ _ => 0) (fun _ => 0) (fun _ _ _ => 1)
        (some fun _ => 1) 1).link_loss
      = (∑ b in Finset.range 1, ∑ i in Finset.range 1, ∑ j in Finset.range 1,
          (if i < 1 ∧ j < 1 then
            -(1 : ℝ) * Real.log
                (min (powSumT 1 (mm3 1 (fun _ _ _ => (1 : ℝ)) (tr3 fun _ _ _ => 1)) 1 b i j) 1
                  + eps7)
              - (1 - 1) * Real.log
                (1 - min (powSumT 1 (mm3 1 (fun _ _ _ => (1 : ℝ)) (tr3 fun _ _ _ => 1)) 1 b i j)
                    1 + eps7)
          else 0))
        / (∑ b in Finset.range 1, ((1 * 1 : ℕ) : ℝ)) :=
  C4_link_loss 1 1 1 1 0 (fun _ _ _ => 1) (fun _ _ => 0) (fun _ => 0) (fun _ _ _ => 1)
    (fun _ => 1) 1 (by decide)

theorem C8_witness :
    (softLoss 1 1 1 1 false 1 (fun _ _ _ => 1) (fun _ _ => 0) (fun _ => 0) (fun _ _ _ => 1)
        none 1).warned
      ∧ (softLoss 1 1 1 1 false 1 (fun _ _ _ => 1) (fun _ _ => 0) (fun _ => 0)
          (fun _ _ _ => 1) none 1).val
        = cross_entropy 1 1 (fun _ _ => 0) (fun _ => 0)
          + (if (false : Bool) then
              (∑ b in Finset.range 1, ∑ i in Finset.range 1, ∑ j in Finset.range 1,
                (-(1 : ℝ) * Real.log
                    (min (powSumT 1 (mm3 1 (fun _ _ _ => (1 : ℝ)) (tr3 fun _ _ _ => 1)) 1 b i j)
                      1 + eps7)
                  - (1 - 1) * Real.log
                    (1 - min (powSumT 1 (mm3 1 (fun _ _ _ => (1 : ℝ)) (tr3 fun _ _ _ => 1)) 1
                        b i j) 1 + eps7)))
                / ((1 * 1 * 1 : ℕ) : ℝ)
            else 0)
          + (if (0 : ℝ) < 1 then
              (∑ b in Finset.range 1, ∑ i in Finset.range 1, ∑ j in Finset.range 1,
                (-mm3 1 (fun _ _ _ => (1 : ℝ)) (tr3 fun _ _ _ => 1) b i j
                    * Real.log (mm3 1 (fun _ _ _ => (1 : ℝ)) (tr3 fun _ _ _ => 1) b i j + eps7)
                  - (1 - mm3 1 (fun _ _ _ => (1 : ℝ)) (tr3 fun _ _ _ => 1) b i j)
                    * Real.log
                      (1 - mm3 1 (fun _ _ _ => (1 : ℝ)) (tr3 fun _ _ _ => 1) b i j + eps7)))
                * 1 / ((1 * 1 * 1 : ℕ) : ℝ)
            else 0) :=
  C8_unmasked_with_warning 1 1 1 1 false 1 (fun _ _ _ => 1) (fun _ _ => 0) (fun _ => 0)
    (fun _ _ _ => 1) 1 (Or.inr one_pos) (by decide)

/-- C10: the plain encoder's forward pass ignores the per-graph true node
counts: its ypred with batch_num_nodes given equals its ypred with
batch_num_nodes=None (the mask is constructed and stored — second conjunct —
but never applied). -/
theorem C10_plain_forward_ignores_counts (m : PlainModule) (B maxN : ℕ) (x adj : T3)
    (c : Counts) (nobn : Bool) :
    (plainForward m B maxN x adj (some c) nobn).1
        = (plainForward m B maxN x adj none nobn).1
      ∧ (plainForward m B maxN x adj (some c) nobn).2 = some (construct_mask maxN c) :=
  ⟨rfl, rfl⟩

end

end DiffPool
